import Mathlib

/-! AceTMI: `SimpleTmiFastInterface`

A shallow embedding of `src/ace_tmi/SimpleTmiFastInterface.h`: the bit-banged
two-wire TM1637 protocol engine.  Every method of the class is a function on a
`World` (the pin registers plus the chronological log of the calls made to the
pin layer), written statement for statement after the C++ body.
-/

namespace ace_tmi

/-! ## The pin layer -/

/-- Pin direction, the Arduino constants `INPUT` and `OUTPUT`. -/
inductive PinMode where
  | INPUT
  | OUTPUT
deriving DecidableEq, Repr

/-- Logic level, the Arduino constants `LOW` (0) and `HIGH` (1). -/
inductive Level where
  | LOW
  | HIGH
deriving DecidableEq, Repr

/-- Numeric value of a level as a `uint8_t`: `LOW` is 0 and `HIGH` is 1. -/
def Level.toNat : Level → Nat
  | .LOW => 0
  | .HIGH => 1

/-- One GPIO pin: its direction register bit and its output register bit. -/
structure Pin where
  mode : PinMode
  out : Level
deriving DecidableEq, Repr

/-- All GPIO pins of the board, indexed by pin number. -/
abbrev Pins := Nat → Pin

/-- A call made to the pin layer. -/
inductive Event where
  | digitalWriteFast (pin : Nat) (val : Level)
  | pinModeFast (pin : Nat) (mode : PinMode)
  | digitalReadFast (pin : Nat) (val : Level)
  | delayMicroseconds (us : Nat)
deriving DecidableEq, Repr

/-- A log entry: the call and the pin registers right after it. -/
structure Step where
  ev : Event
  pins : Pins

/-- The pin registers and the log of all pin-layer calls so far, oldest first. -/
structure World where
  pins : Pins
  log : List Step

/-- The board and whatever is wired to it: the level a read of a pin returns,
given everything that has happened so far. -/
abbrev Board := World → Nat → Level

/-- The template parameters of `SimpleTmiFastInterface`. -/
structure Config where
  T_DIO_PIN : Nat
  T_CLK_PIN : Nat
  T_DELAY_MICROS : Nat
deriving DecidableEq, Repr

/-- Modelled from the spec: the pin-write primitive of the external pin layer
(`digitalWriteFast`), which sets the output register bit of one pin and leaves
its direction alone. -/
def digitalWriteFast (pin : Nat) (val : Level) (w : World) : World :=
  let p : Pins := Function.update w.pins pin { mode := (w.pins pin).mode, out := val }
  { pins := p, log := w.log ++ [{ ev := .digitalWriteFast pin val, pins := p }] }

/-- Modelled from the spec: the pin-mode primitive of the external pin layer
(`pinModeFast`), which sets the direction of one pin (driving/output or
non-driving/input) and leaves its output register bit alone. -/
def pinModeFast (pin : Nat) (mode : PinMode) (w : World) : World :=
  let p : Pins := Function.update w.pins pin { mode := mode, out := (w.pins pin).out }
  { pins := p, log := w.log ++ [{ ev := .pinModeFast pin mode, pins := p }] }

/-- Modelled from the spec: the pin-read primitive of the external pin layer
(`digitalReadFast`), a single sample of the current logic level of one pin. -/
def digitalReadFast (board : Board) (pin : Nat) (w : World) : Level × World :=
  let v := board w pin
  (v, { pins := w.pins, log := w.log ++ [{ ev := .digitalReadFast pin v, pins := w.pins }] })

/-- Modelled from the spec: the blocking delay of the external platform
(`delayMicroseconds`); it changes no pin. -/
def delayMicroseconds (us : Nat) (w : World) : World :=
  { pins := w.pins, log := w.log ++ [{ ev := .delayMicroseconds us, pins := w.pins }] }

/-! ## `SimpleTmiFastInterface` -/

/-- `static void bitDelay() { delayMicroseconds(T_DELAY_MICROS); }` -/
def bitDelay (cfg : Config) (w : World) : World :=
  delayMicroseconds cfg.T_DELAY_MICROS w

/-- `static void clockHigh() { pinModeFast(T_CLK_PIN, INPUT); bitDelay(); }` -/
def clockHigh (cfg : Config) (w : World) : World :=
  bitDelay cfg (pinModeFast cfg.T_CLK_PIN .INPUT w)

/-- `static void clockLow() { pinModeFast(T_CLK_PIN, OUTPUT); bitDelay(); }` -/
def clockLow (cfg : Config) (w : World) : World :=
  bitDelay cfg (pinModeFast cfg.T_CLK_PIN .OUTPUT w)

/-- `static void dataHigh() { pinModeFast(T_DIO_PIN, INPUT); bitDelay(); }` -/
def dataHigh (cfg : Config) (w : World) : World :=
  bitDelay cfg (pinModeFast cfg.T_DIO_PIN .INPUT w)

/-- `static void dataLow() { pinModeFast(T_DIO_PIN, OUTPUT); bitDelay(); }` -/
def dataLow (cfg : Config) (w : World) : World :=
  bitDelay cfg (pinModeFast cfg.T_DIO_PIN .OUTPUT w)

/-- `void begin()`: write `LOW` to both output bits, then release both lines. -/
def begin (cfg : Config) (w : World) : World :=
  let w := digitalWriteFast cfg.T_CLK_PIN .LOW w
  let w := digitalWriteFast cfg.T_DIO_PIN .LOW w
  let w := clockHigh cfg w
  dataHigh cfg w

/-- `void end()`: set both pins to `INPUT` mode. -/
def «end» (cfg : Config) (w : World) : World :=
  let w := clockHigh cfg w
  dataHigh cfg w

/-- `void startCondition()`. -/
def startCondition (cfg : Config) (w : World) : World :=
  let w := clockHigh cfg w
  let w := dataHigh cfg w
  let w := dataLow cfg w
  clockLow cfg w

/-- `void stopCondition()`. -/
def stopCondition (cfg : Config) (w : World) : World :=
  let w := dataLow cfg w
  let w := clockHigh cfg w
  dataHigh cfg w

/-- The `for (uint8_t i = 0; i < 8; ++i)` loop of `write`, with `n = 8 - i`
iterations still to run.  `data` is a `uint8_t`; `data & 0x1` and `data >>= 1`
cannot overflow. -/
def writeLoop (cfg : Config) : Nat → Nat → World → World
  | 0, _, w => w
  | n + 1, data, w =>
    let w := if data &&& 0x1 ≠ 0 then dataHigh cfg w else dataLow cfg w
    let w := clockHigh cfg w
    let w := clockLow cfg w
    writeLoop cfg n (data >>> 1) w

/-- `uint8_t readAck()`: release DIO, release CLK, sample DIO, assert CLK. -/
def readAck (cfg : Config) (board : Board) (w : World) : Nat × World :=
  let w := dataHigh cfg w
  let w := clockHigh cfg w
  let r := digitalReadFast board cfg.T_DIO_PIN w
  let ack := r.1.toNat
  let w := clockLow cfg r.2
  (ack, w)

/-- `uint8_t write(uint8_t data)`: the eight bit cells, then `readAck()`, and
the inverted ACK bit as the `uint8_t` result. -/
def write (cfg : Config) (board : Board) (data : Nat) (w : World) : Nat × World :=
  let w := writeLoop cfg 8 data w
  let r := readAck cfg board w
  ((r.1 ^^^ 0x1) % 256, r.2)

/-! ## Observations -/

/-- What the host does to an open-drain line through one pin: `released` when
the pin is in `INPUT` mode (not driving; the pull-up makes the line high unless
the device pulls it low), `asserted` when the pin is in `OUTPUT` mode with
output bit `LOW` (driven low), `drivenHigh` when it is in `OUTPUT` mode with
output bit `HIGH`. -/
inductive LineState where
  | released
  | asserted
  | drivenHigh
deriving DecidableEq, Repr

/-- Line state of a pin. -/
def lineState (p : Pin) : LineState :=
  match p.mode, p.out with
  | .INPUT, _ => .released
  | .OUTPUT, .LOW => .asserted
  | .OUTPUT, .HIGH => .drivenHigh

/-- The steps logged between world `w` and a later world `w1`. -/
def traceFrom (w w1 : World) : List Step :=
  w1.log.drop w.log.length

/-- The calls of a list of steps. -/
def events (l : List Step) : List Event :=
  l.map Step.ev

/-- The pair (CLOCK line state, DATA line state) after each step. -/
def lineStates (cfg : Config) (l : List Step) : List (LineState × LineState) :=
  l.map (fun s => (lineState (s.pins cfg.T_CLK_PIN), lineState (s.pins cfg.T_DIO_PIN)))

/-- The body of one iteration of the loop of `write`: set DIO from the low
bit of `data`, release CLK, assert CLK. -/
def bitCell (cfg : Config) (data : Nat) (w : World) : World :=
  clockLow cfg (clockHigh cfg (if data &&& 0x1 ≠ 0 then dataHigh cfg w else dataLow cfg w))

/-- Whether a step is a release of the CLOCK line (the rising edge of a cell). -/
def isClockRelease (cfg : Config) (s : Step) : Bool :=
  s.ev == .pinModeFast cfg.T_CLK_PIN .INPUT

/-- Whether a step is a read of a pin. -/
def isRead (s : Step) : Bool :=
  match s.ev with
  | .digitalReadFast _ _ => true
  | _ => false

/-- The DATA line state at each release of CLOCK, in order. -/
def dataAtClockRelease (cfg : Config) (l : List Step) : List LineState :=
  (l.filter (isClockRelease cfg)).map (fun s => lineState (s.pins cfg.T_DIO_PIN))

/-- The steps of a trace that come before the first read of a pin. -/
def beforeSample (l : List Step) : List Step :=
  l.takeWhile (fun s => !isRead s)

/-- The DATA line state that transmits bit `i` of `v`: released for 1, asserted
for 0. -/
def bitLine (v i : Nat) : LineState :=
  if (v >>> i) &&& 1 = 1 then .released else .asserted

/-- The level read at one step, when the step is a read of the DATA pin. -/
def sampleOf (cfg : Config) (s : Step) : Option Level :=
  match s.ev with
  | .digitalReadFast pin val => if pin = cfg.T_DIO_PIN then some val else none
  | _ => none

/-- The levels sampled on the DATA pin in a trace, in order. -/
def samples (cfg : Config) (l : List Step) : List Level :=
  l.filterMap (sampleOf cfg)

/-- Modelled from the spec: the level of an open-drain line seen at a pin.  A
pin in `OUTPUT` mode puts its output bit on the line; with the pin in `INPUT`
mode the line is low when the device pulls it down and is otherwise pulled
high by the external resistor. -/
def lineLevel (p : Pin) (deviceAsserts : Bool) : Level :=
  match p.mode with
  | .OUTPUT => p.out
  | .INPUT => if deviceAsserts then .LOW else .HIGH

/-- A board whose reads return the open-drain line level, for a device that
decides from everything so far whether it pulls a pin's line low. -/
def openDrainBoard (device : World → Nat → Bool) : Board :=
  fun w pin => lineLevel (w.pins pin) (device w pin)

/-- A world is in an ACK window when it is reached by the eight bit cells of a
byte followed by the release of DATA and the release of CLOCK: the point at
which `readAck` samples DATA. -/
def inAckWindow (cfg : Config) (x : World) : Prop :=
  ∃ (w : World) (v : Nat), x = clockHigh cfg (dataHigh cfg (writeLoop cfg 8 v w))

/-- A call of the public interface made after `begin()`. -/
inductive Call where
  | «end»
  | startCondition
  | stopCondition
  | write (data : Nat)
deriving DecidableEq, Repr

/-- Perform one call; the result of a `write` is dropped. -/
def runCall (cfg : Config) (board : Board) : Call → World → World
  | .«end», w => «end» cfg w
  | .startCondition, w => startCondition cfg w
  | .stopCondition, w => stopCondition cfg w
  | .write data, w => (write cfg board data w).2

/-- Perform a sequence of calls, first to last. -/
def runCalls (cfg : Config) (board : Board) : List Call → World → World
  | [], w => w
  | c :: cs, w => runCalls cfg board cs (runCall cfg board c w)

/-- A line is not driven actively high through pin `p`: the pin is not in
`OUTPUT` mode with output bit `HIGH`, and whatever the device does the line
can be high only with the pin in `INPUT` mode. -/
def notDrivenHigh (p : Pin) : Prop :=
  ¬ (p.mode = .OUTPUT ∧ p.out = .HIGH) ∧
    ∀ deviceAsserts : Bool, lineLevel p deviceAsserts = .HIGH → p.mode = .INPUT

/-- World `w1` is reached from `w` by logging steps none of which changes the
output bit of any pin. -/
def KeepsOut (w w1 : World) : Prop :=
  w.log <+: w1.log ∧ (∀ p, (w1.pins p).out = (w.pins p).out) ∧
    ∀ s ∈ traceFrom w w1, ∀ p, (s.pins p).out = (w.pins p).out

/-- Whether every pin-mode change of an event list is immediately followed by
a delay of `T` microseconds, and every delay immediately follows a pin-mode
change. -/
def delayAfterEachTransition (T : Nat) : List Event → Bool
  | [] => true
  | .pinModeFast _ _ :: .delayMicroseconds us :: rest =>
    us == T && delayAfterEachTransition T rest
  | .pinModeFast _ _ :: _ => false
  | .delayMicroseconds _ :: _ => false
  | _ :: rest => delayAfterEachTransition T rest

/-- Whether an event is a delay. -/
def isDelay : Event → Bool
  | .delayMicroseconds _ => true
  | _ => false

/-- Whether an event is a line-state transition: a release (`INPUT`) or an
assertion (`OUTPUT`) of a line through its pin mode. -/
def isTransition : Event → Bool
  | .pinModeFast _ _ => true
  | _ => false

/-- A device that pulls every line low all the time. -/
def alwaysAck : World → Nat → Bool :=
  fun _ _ => true

/-- The mode `write` gives the DATA pin for bit `i` of `v`: `INPUT` (released)
for 1, `OUTPUT` (asserted) for 0. -/
def bitMode (v i : Nat) : PinMode :=
  if (v >>> i) &&& 1 ≠ 0 then .INPUT else .OUTPUT

/-- The calls of one bit cell that sets the DATA pin to mode `m`. -/
def cellEvents (cfg : Config) (m : PinMode) : List Event :=
  [.pinModeFast cfg.T_DIO_PIN m, .delayMicroseconds cfg.T_DELAY_MICROS,
   .pinModeFast cfg.T_CLK_PIN .INPUT, .delayMicroseconds cfg.T_DELAY_MICROS,
   .pinModeFast cfg.T_CLK_PIN .OUTPUT, .delayMicroseconds cfg.T_DELAY_MICROS]

/-- The calls of the ACK cell when the level `l` is sampled: release DATA,
release CLOCK, sample DATA, assert CLOCK. -/
def ackEvents (cfg : Config) (l : Level) : List Event :=
  [.pinModeFast cfg.T_DIO_PIN .INPUT, .delayMicroseconds cfg.T_DELAY_MICROS,
   .pinModeFast cfg.T_CLK_PIN .INPUT, .delayMicroseconds cfg.T_DELAY_MICROS,
   .digitalReadFast cfg.T_DIO_PIN l,
   .pinModeFast cfg.T_CLK_PIN .OUTPUT, .delayMicroseconds cfg.T_DELAY_MICROS]

/-- The calls of the first `n` bit cells of the byte `v`, bit 0 first. -/
def cellsEvents (cfg : Config) (n v : Nat) : List Event :=
  (List.range n).flatMap (fun i => cellEvents cfg (bitMode v i))

/-- The calls of a whole `write(v)` that samples the level `l`: the eight bit
cells of `v`, bit 0 first, then the ACK cell. -/
def writeEvents (cfg : Config) (v : Nat) (l : Level) : List Event :=
  cellsEvents cfg 8 v ++ ackEvents cfg l

/-- A device that never pulls any line low (absent or not responding). -/
def neverAck : World → Nat → Bool :=
  fun _ _ => false

/-- The events that follow the `n`-th assertion of CLOCK (the `n`-th falling
edge) of an event list; nothing when CLOCK is asserted fewer than `n` times. -/
def afterClockFall (cfg : Config) : List Event → Nat → List Event
  | l, 0 => l
  | [], _ + 1 => []
  | e :: rest, n + 1 =>
    if e = .pinModeFast cfg.T_CLK_PIN .OUTPUT then afterClockFall cfg rest n
    else afterClockFall cfg rest (n + 1)

/-- The opposite pin mode. -/
def PinMode.other : PinMode → PinMode
  | .INPUT => .OUTPUT
  | .OUTPUT => .INPUT

/-- The number of delays of an event list that come before CLK is next set to
mode `m`; `none` when the list never sets CLK to `m`. -/
def delaysUntilClock (cfg : Config) (m : PinMode) : List Event → Option Nat
  | [] => none
  | e :: rest =>
    if e = .pinModeFast cfg.T_CLK_PIN m then some 0
    else
      match delaysUntilClock cfg m rest with
      | none => none
      | some k => some (if isDelay e then k + 1 else k)

/-- The CLOCK phases of an event list, in order: for every setting of the CLK
pin mode that is followed later in the list by the opposite setting, the mode
set (`OUTPUT` starts a CLOCK-asserted phase at a falling edge, `INPUT` starts a
CLOCK-released phase at a rising edge) and the number of delays up to that
opposite setting. -/
def clockPhases (cfg : Config) : List Event → List (PinMode × Nat)
  | [] => []
  | .pinModeFast pin m :: rest =>
    if pin = cfg.T_CLK_PIN then
      match delaysUntilClock cfg m.other rest with
      | some k => (m, k) :: clockPhases cfg rest
      | none => clockPhases cfg rest
    else clockPhases cfg rest
  | _ :: rest => clockPhases cfg rest

/-- The two states of the state table of the protocol. -/
inductive BusState where
  | Idle
  | BusActive
deriving DecidableEq, Repr

/-- The state table: the state a call leads to from a state, `none` when the
table does not allow the call there.  While idle: `end()` and
`startCondition()`; while the bus is active: `write()` and `stopCondition()`. -/
def nextState : BusState → Call → Option BusState
  | .Idle, .«end» => some .Idle
  | .Idle, .startCondition => some .BusActive
  | .BusActive, .write _ => some .BusActive
  | .BusActive, .stopCondition => some .Idle
  | _, _ => none

/-- Whether a call sequence follows the state table from a state. -/
def followsTable : BusState → List Call → Bool
  | _, [] => true
  | st, c :: cs =>
    match nextState st c with
    | some st1 => followsTable st1 cs
    | none => false

/-- Each call of a sequence with the world on entry to it. -/
def entries (cfg : Config) (board : Board) : List Call → World → List (Call × World)
  | [], _ => []
  | c :: cs, w => (c, w) :: entries cfg board cs (runCall cfg board c w)

/-- The precondition of a call: CLOCK asserted for `write` and
`stopCondition`, both lines released for `startCondition`, none for `end`. -/
def entryOk (cfg : Config) : Call → World → Prop
  | .write _, x => lineState (x.pins cfg.T_CLK_PIN) = .asserted
  | .stopCondition, x => lineState (x.pins cfg.T_CLK_PIN) = .asserted
  | .startCondition, x =>
    lineState (x.pins cfg.T_CLK_PIN) = .released ∧ lineState (x.pins cfg.T_DIO_PIN) = .released
  | .«end», _ => True

/-- What holds of the pins in each state of the table: both output bits `LOW`,
and both pins in `INPUT` mode while idle, the CLK pin in `OUTPUT` mode while
the bus is active. -/
def tableInv (cfg : Config) : BusState → World → Prop
  | .Idle, x =>
    ((x.pins cfg.T_CLK_PIN).out = .LOW ∧ (x.pins cfg.T_DIO_PIN).out = .LOW) ∧
      (x.pins cfg.T_CLK_PIN).mode = .INPUT ∧ (x.pins cfg.T_DIO_PIN).mode = .INPUT
  | .BusActive, x =>
    ((x.pins cfg.T_CLK_PIN).out = .LOW ∧ (x.pins cfg.T_DIO_PIN).out = .LOW) ∧
      (x.pins cfg.T_CLK_PIN).mode = .OUTPUT

/-- A sample call sequence: a transaction of two bytes, `end()`, and an empty
transaction. -/
def sampleCalls : List Call :=
  [.startCondition, .write 0x3F, .write 0x00, .stopCondition, .«end», .startCondition,
   .stopCondition]

/-- Whether a step is a change the host makes to the DATA line: a pin-mode
change or an output write on the DIO pin. -/
def isDataChange (cfg : Config) (s : Step) : Bool :=
  match s.ev with
  | .pinModeFast pin _ => pin == cfg.T_DIO_PIN
  | .digitalWriteFast pin _ => pin == cfg.T_DIO_PIN
  | _ => false

/-- The CLOCK line state at each change the host makes to DATA, in order. -/
def clockAtDataChange (cfg : Config) (l : List Step) : List LineState :=
  (l.filter (isDataChange cfg)).map (fun s => lineState (s.pins cfg.T_CLK_PIN))

/-- Whether an event writes the output level of a pin. -/
def isLevelWrite : Event → Bool
  | .digitalWriteFast _ _ => true
  | _ => false

/-- What the host does in a call to the pin layer, without the value a read
returns. -/
inductive Action where
  | digitalWriteFast (pin : Nat) (val : Level)
  | pinModeFast (pin : Nat) (mode : PinMode)
  | digitalReadFast (pin : Nat)
  | delayMicroseconds (us : Nat)
deriving DecidableEq, Repr

/-- The action of an event. -/
def Event.action : Event → Action
  | .digitalWriteFast pin val => .digitalWriteFast pin val
  | .pinModeFast pin mode => .pinModeFast pin mode
  | .digitalReadFast pin _ => .digitalReadFast pin
  | .delayMicroseconds us => .delayMicroseconds us

/-- The pin actions and delays of a trace, in order. -/
def actions (l : List Step) : List Action :=
  (events l).map Event.action

/-- A board on which `begin()` has not run and every pin has been left in
`INPUT` mode with its pull-up enabled (output bit `HIGH`), and an empty log. -/
def pullupWorld : World :=
  { pins := fun _ => { mode := .INPUT, out := .HIGH }, log := [] }

/-- A board after reset: every pin in `INPUT` mode with output bit `LOW`, and
an empty log. -/
def resetWorld : World :=
  { pins := fun _ => { mode := .INPUT, out := .LOW }, log := [] }

/-- A board on which only CLK (pin 3) has been set up, in `OUTPUT` mode with
output bit `LOW`; every other pin is in `INPUT` mode with output bit `HIGH`. -/
def clockOnlyWorld : World :=
  { pins := fun p => if p = 3 then { mode := .OUTPUT, out := .LOW }
      else { mode := .INPUT, out := .HIGH },
    log := [] }

/-- A sample configuration: DIO on pin 2, CLK on pin 3, 100 microseconds. -/
def cfg23 : Config :=
  { T_DIO_PIN := 2, T_CLK_PIN := 3, T_DELAY_MICROS := 100 }


lemma lineState_asserted_iff (p : Pin) :
    lineState p = .asserted ↔ p.mode = .OUTPUT ∧ p.out = .LOW := by
  rcases p with ⟨m, o⟩
  cases m <;> cases o <;> simp [lineState]

/-! ## Logs only grow -/

lemma traceFrom_self (w : World) : traceFrom w w = [] := by
  simp [traceFrom]

lemma traceFrom_append {w w1 w2 : World} (h1 : w.log <+: w1.log) (h2 : w1.log <+: w2.log) :
    traceFrom w w2 = traceFrom w w1 ++ traceFrom w1 w2 := by
  obtain ⟨a, ha⟩ := h1
  obtain ⟨b, hb⟩ := h2
  simp [traceFrom, ← hb, ← ha]

lemma bitCell_extends (cfg : Config) (d : Nat) (w : World) :
    w.log <+: (bitCell cfg d w).log := by
  unfold bitCell
  split <;>
    simp [clockHigh, clockLow, dataHigh, dataLow, bitDelay, pinModeFast, delayMicroseconds]

lemma writeLoop_succ (cfg : Config) (n d : Nat) (w : World) :
    writeLoop cfg (n + 1) d w = writeLoop cfg n (d >>> 1) (bitCell cfg d w) := rfl

lemma writeLoop_extends (cfg : Config) (n : Nat) :
    ∀ (d : Nat) (w : World), w.log <+: (writeLoop cfg n d w).log := by
  induction n with
  | zero => intro d w; exact List.prefix_refl _
  | succ n ih =>
    intro d w
    rw [writeLoop_succ]
    exact (bitCell_extends cfg d w).trans (ih _ _)

lemma traceFrom_writeLoop_succ (cfg : Config) (n d : Nat) (w : World) :
    traceFrom w (writeLoop cfg (n + 1) d w) =
      traceFrom w (bitCell cfg d w) ++
        traceFrom (bitCell cfg d w) (writeLoop cfg n (d >>> 1) (bitCell cfg d w)) := by
  rw [writeLoop_succ]
  exact traceFrom_append (bitCell_extends cfg d w) (writeLoop_extends cfg n _ _)

/-! ## Output bits are never touched by the loop -/

lemma bitCell_out (cfg : Config) (d : Nat) (w : World) (p : Nat) :
    ((bitCell cfg d w).pins p).out = (w.pins p).out := by
  unfold bitCell
  split <;>
    simp [clockHigh, clockLow, dataHigh, dataLow, bitDelay, pinModeFast, delayMicroseconds,
      Function.update] <;>
    split_ifs <;> simp_all

lemma writeLoop_out (cfg : Config) (n : Nat) :
    ∀ (d : Nat) (w : World) (p : Nat),
      ((writeLoop cfg n d w).pins p).out = (w.pins p).out := by
  induction n with
  | zero => intro d w p; rfl
  | succ n ih =>
    intro d w p
    rw [writeLoop_succ, ih, bitCell_out]

/-! ## Start and stop conditions -/

/-- C3 (as amended): when the output bits of the CLOCK and DATA pins are `LOW`
(as `begin()` leaves them) and the two lines are on distinct pins,
`startCondition()` performs release CLOCK, release DATA, assert DATA, assert
CLOCK, each followed by one delay; the line states pass through
(released, released), (released, asserted), (asserted, asserted), and both
lines end asserted. -/
theorem startCondition_sequence (cfg : Config) (w : World)
    (hpins : cfg.T_DIO_PIN ≠ cfg.T_CLK_PIN)
    (hclk : (w.pins cfg.T_CLK_PIN).out = .LOW)
    (hdat : (w.pins cfg.T_DIO_PIN).out = .LOW) :
    events (traceFrom w (startCondition cfg w)) =
        [.pinModeFast cfg.T_CLK_PIN .INPUT, .delayMicroseconds cfg.T_DELAY_MICROS,
         .pinModeFast cfg.T_DIO_PIN .INPUT, .delayMicroseconds cfg.T_DELAY_MICROS,
         .pinModeFast cfg.T_DIO_PIN .OUTPUT, .delayMicroseconds cfg.T_DELAY_MICROS,
         .pinModeFast cfg.T_CLK_PIN .OUTPUT, .delayMicroseconds cfg.T_DELAY_MICROS] ∧
      lineStates cfg (traceFrom w (startCondition cfg w)) =
        [(.released, lineState (w.pins cfg.T_DIO_PIN)),
         (.released, lineState (w.pins cfg.T_DIO_PIN)),
         (.released, .released), (.released, .released),
         (.released, .asserted), (.released, .asserted),
         (.asserted, .asserted), (.asserted, .asserted)] ∧
      lineState ((startCondition cfg w).pins cfg.T_CLK_PIN) = .asserted ∧
      lineState ((startCondition cfg w).pins cfg.T_DIO_PIN) = .asserted := by
  have hpins2 : cfg.T_CLK_PIN ≠ cfg.T_DIO_PIN := fun h => hpins h.symm
  simp [traceFrom, events, lineStates, startCondition, clockHigh, clockLow, dataHigh, dataLow,
    bitDelay, pinModeFast, delayMicroseconds, lineState, Function.update, hpins, hpins2, hclk, hdat]

/-- Witness of `startCondition_sequence` on a board after reset. -/
theorem startCondition_sequence_witness :
    cfg23.T_DIO_PIN ≠ cfg23.T_CLK_PIN ∧
      lineStates cfg23 (traceFrom resetWorld (startCondition cfg23 resetWorld)) =
        [(.released, lineState (resetWorld.pins cfg23.T_DIO_PIN)),
         (.released, lineState (resetWorld.pins cfg23.T_DIO_PIN)),
         (.released, .released), (.released, .released),
         (.released, .asserted), (.released, .asserted),
         (.asserted, .asserted), (.asserted, .asserted)] :=
  ⟨by decide, (startCondition_sequence cfg23 resetWorld (by decide) rfl rfl).2.1⟩

/-- C3 fails as stated: from a pin state whose output bits are `HIGH`,
`startCondition()` never asserts a line; both pins end in `OUTPUT` mode driving
`HIGH`. -/
theorem startCondition_counterexample :
    lineStates cfg23 (traceFrom pullupWorld (startCondition cfg23 pullupWorld)) =
        [(.released, .released), (.released, .released),
         (.released, .released), (.released, .released),
         (.released, .drivenHigh), (.released, .drivenHigh),
         (.drivenHigh, .drivenHigh), (.drivenHigh, .drivenHigh)] ∧
      lineState ((startCondition cfg23 pullupWorld).pins cfg23.T_CLK_PIN) ≠ .asserted ∧
      lineState ((startCondition cfg23 pullupWorld).pins cfg23.T_DIO_PIN) ≠ .asserted := by
  decide


lemma bitLine_zero (d : Nat) : bitLine d 0 = if d &&& 0x1 ≠ 0 then .released else .asserted := by
  unfold bitLine
  rcases Nat.mod_two_eq_zero_or_one d with h | h <;> simp [Nat.and_one_is_mod, h]

lemma bitLine_shift (d i : Nat) : bitLine (d >>> 1) i = bitLine d (i + 1) := by
  unfold bitLine
  rw [← Nat.shiftRight_add, Nat.add_comm]

lemma dataAtClockRelease_append (cfg : Config) (a b : List Step) :
    dataAtClockRelease cfg (a ++ b) = dataAtClockRelease cfg a ++ dataAtClockRelease cfg b := by
  simp [dataAtClockRelease]

lemma bitCell_dataAtClockRelease (cfg : Config) (d : Nat) (w : World)
    (hpins : cfg.T_DIO_PIN ≠ cfg.T_CLK_PIN) (hdat : (w.pins cfg.T_DIO_PIN).out = .LOW) :
    dataAtClockRelease cfg (traceFrom w (bitCell cfg d w)) = [bitLine d 0] := by
  have hpins2 : cfg.T_CLK_PIN ≠ cfg.T_DIO_PIN := fun h => hpins h.symm
  rw [bitLine_zero]
  unfold bitCell
  split <;>
    simp [traceFrom, dataAtClockRelease, isClockRelease, clockHigh, clockLow, dataHigh, dataLow,
      bitDelay, pinModeFast, delayMicroseconds, lineState, Function.update, hpins, hpins2, hdat,
      List.filter_cons]

lemma writeLoop_dataAtClockRelease (cfg : Config) (hpins : cfg.T_DIO_PIN ≠ cfg.T_CLK_PIN)
    (n : Nat) :
    ∀ (d : Nat) (w : World), (w.pins cfg.T_DIO_PIN).out = .LOW →
      dataAtClockRelease cfg (traceFrom w (writeLoop cfg n d w)) =
        (List.range n).map (bitLine d) := by
  induction n with
  | zero => intro d w _; simp [writeLoop, traceFrom_self, dataAtClockRelease]
  | succ n ih =>
    intro d w hdat
    rw [traceFrom_writeLoop_succ, dataAtClockRelease_append,
      bitCell_dataAtClockRelease cfg d w hpins hdat,
      ih (d >>> 1) (bitCell cfg d w) (by rw [bitCell_out]; exact hdat),
      List.range_succ_eq_map]
    simp [List.map_map, Function.comp_def, bitLine_shift]

/-! ## The ACK cell and the whole `write` -/

lemma readAck_extends (cfg : Config) (board : Board) (w : World) :
    w.log <+: (readAck cfg board w).2.log := by
  simp [readAck, clockHigh, clockLow, dataHigh, bitDelay, pinModeFast, delayMicroseconds,
    digitalReadFast]

lemma write_snd (cfg : Config) (board : Board) (v : Nat) (w : World) :
    (write cfg board v w).2 = (readAck cfg board (writeLoop cfg 8 v w)).2 := rfl

lemma write_extends (cfg : Config) (board : Board) (v : Nat) (w : World) :
    w.log <+: (write cfg board v w).2.log := by
  rw [write_snd]
  exact (writeLoop_extends cfg 8 v w).trans (readAck_extends cfg board _)

lemma write_trace (cfg : Config) (board : Board) (v : Nat) (w : World) :
    traceFrom w (write cfg board v w).2 =
      traceFrom w (writeLoop cfg 8 v w) ++
        traceFrom (writeLoop cfg 8 v w) (readAck cfg board (writeLoop cfg 8 v w)).2 := by
  rw [write_snd]
  exact traceFrom_append (writeLoop_extends cfg 8 v w) (readAck_extends cfg board _)

lemma bitCell_noRead (cfg : Config) (d : Nat) (w : World) :
    ∀ s ∈ traceFrom w (bitCell cfg d w), isRead s = false := by
  unfold bitCell
  split <;>
    simp [traceFrom, isRead, clockHigh, clockLow, dataHigh, dataLow, bitDelay, pinModeFast,
      delayMicroseconds]

lemma writeLoop_noRead (cfg : Config) (n : Nat) :
    ∀ (d : Nat) (w : World), ∀ s ∈ traceFrom w (writeLoop cfg n d w), isRead s = false := by
  induction n with
  | zero => intro d w s hs; simp [writeLoop, traceFrom_self] at hs
  | succ n ih =>
    intro d w s hs
    rw [traceFrom_writeLoop_succ, List.mem_append] at hs
    rcases hs with hs | hs
    · exact bitCell_noRead cfg d w s hs
    · exact ih _ _ s hs

lemma beforeSample_append (a b : List Step) (ha : ∀ s ∈ a, isRead s = false) :
    beforeSample (a ++ b) = a ++ beforeSample b := by
  unfold beforeSample
  exact List.takeWhile_append_of_pos (fun s hs => by simp [ha s hs])

lemma readAck_dataAtClockRelease (cfg : Config) (board : Board) (w : World)
    (hpins : cfg.T_DIO_PIN ≠ cfg.T_CLK_PIN) :
    dataAtClockRelease cfg (traceFrom w (readAck cfg board w).2) = [.released] ∧
      dataAtClockRelease cfg (beforeSample (traceFrom w (readAck cfg board w).2)) =
        [.released] := by
  have hpins2 : cfg.T_CLK_PIN ≠ cfg.T_DIO_PIN := fun h => hpins h.symm
  simp [traceFrom, dataAtClockRelease, beforeSample, isRead, isClockRelease, readAck,
    clockHigh, clockLow, dataHigh, bitDelay, pinModeFast, delayMicroseconds, digitalReadFast,
    lineState, Function.update, hpins, hpins2, List.filter_cons, List.takeWhile_cons]

/-! ## Byte transmission -/

/-- C1 (as amended): when the output bit of the DATA pin is `LOW` (as `begin()`
leaves it) and the two lines are on distinct pins, `write(v)` releases CLOCK
nine times, all before the ACK sample: in the first eight cells DATA is
released if bit `i` of `v` is 1 and asserted if it is 0, least-significant bit
first, and the ninth is the ACK cell, with DATA released. -/
theorem write_bits_lsb_first (cfg : Config) (board : Board) (v : Nat) (w : World)
    (hpins : cfg.T_DIO_PIN ≠ cfg.T_CLK_PIN)
    (hdat : (w.pins cfg.T_DIO_PIN).out = .LOW) :
    dataAtClockRelease cfg (beforeSample (traceFrom w (write cfg board v w).2)) =
        (List.range 8).map (fun i => if (v >>> i) &&& 1 = 1 then LineState.released
          else LineState.asserted) ++ [.released] ∧
      dataAtClockRelease cfg (traceFrom w (write cfg board v w).2) =
        (List.range 8).map (fun i => if (v >>> i) &&& 1 = 1 then LineState.released
          else LineState.asserted) ++ [.released] := by
  have hloop := writeLoop_dataAtClockRelease cfg hpins 8 v w hdat
  have hack := readAck_dataAtClockRelease cfg board (writeLoop cfg 8 v w) hpins
  have hnr := writeLoop_noRead cfg 8 v w
  rw [write_trace, beforeSample_append _ _ hnr, dataAtClockRelease_append,
    dataAtClockRelease_append, hloop, hack.1, hack.2]
  exact ⟨rfl, rfl⟩

/-- Witness of `write_bits_lsb_first`: the byte `0x3F` on a board after reset. -/
theorem write_bits_lsb_first_witness :
    cfg23.T_DIO_PIN ≠ cfg23.T_CLK_PIN ∧
      dataAtClockRelease cfg23
          (traceFrom resetWorld (write cfg23 (fun _ _ => .LOW) 0x3F resetWorld).2) =
        (List.range 8).map (fun i => if (0x3F >>> i) &&& 1 = 1 then LineState.released
          else LineState.asserted) ++ [.released] :=
  ⟨by decide,
    (write_bits_lsb_first cfg23 (fun _ _ => .LOW) 0x3F resetWorld (by decide) rfl).2⟩

/-- C1 fails as stated: from a pin state whose DATA output bit is `HIGH`,
`write(0x00)` drives DATA high in all eight bit cells instead of asserting it. -/
theorem write_bits_counterexample :
    dataAtClockRelease cfg23
        (traceFrom pullupWorld (write cfg23 (fun _ _ => .LOW) 0x00 pullupWorld).2) =
      [.drivenHigh, .drivenHigh, .drivenHigh, .drivenHigh,
       .drivenHigh, .drivenHigh, .drivenHigh, .drivenHigh, .released] := by
  decide

/-! ## The result of `write` -/

lemma samples_append (cfg : Config) (a b : List Step) :
    samples cfg (a ++ b) = samples cfg a ++ samples cfg b := by
  simp [samples]

lemma samples_of_noRead (cfg : Config) (a : List Step) (ha : ∀ s ∈ a, isRead s = false) :
    samples cfg a = [] := by
  unfold samples
  rw [List.filterMap_eq_nil_iff]
  intro s hs
  have h := ha s hs
  unfold isRead at h
  unfold sampleOf
  split <;> simp_all

lemma readAck_samples (cfg : Config) (board : Board) (w : World) :
    samples cfg (traceFrom w (readAck cfg board w).2) =
      [board (clockHigh cfg (dataHigh cfg w)) cfg.T_DIO_PIN] := by
  simp [traceFrom, samples, sampleOf, readAck, clockHigh, clockLow, dataHigh, bitDelay,
    pinModeFast, delayMicroseconds, digitalReadFast]

lemma write_samples (cfg : Config) (board : Board) (v : Nat) (w : World) :
    samples cfg (traceFrom w (write cfg board v w).2) =
      [board (clockHigh cfg (dataHigh cfg (writeLoop cfg 8 v w))) cfg.T_DIO_PIN] := by
  rw [write_trace, samples_append, samples_of_noRead cfg _ (writeLoop_noRead cfg 8 v w),
    readAck_samples]
  rfl

lemma write_fst (cfg : Config) (board : Board) (v : Nat) (w : World) :
    (write cfg board v w).1 =
      ((board (clockHigh cfg (dataHigh cfg (writeLoop cfg 8 v w))) cfg.T_DIO_PIN).toNat
        ^^^ 0x1) % 256 := rfl

lemma xor_one_of_level (l : Level) :
    (l.toNat ^^^ 0x1) % 256 = l.toNat ^^^ 1 ∧ (l = .LOW → (l.toNat ^^^ 0x1) % 256 = 1) ∧
      (l = .HIGH → (l.toNat ^^^ 0x1) % 256 = 0) := by
  cases l <;> decide

/-- C2: when the level sampled on DATA in the ACK window of `write(v)` is `l`,
the result is `l XOR 1`: 1 (ACK) for a sampled 0 and 0 (NACK) for a sampled 1;
any other call of `write`, whatever its byte, with the same sample returns the
same result. -/
theorem write_returns_inverted_ack (cfg : Config) (board : Board) (v : Nat) (w : World)
    (l : Level) (hl : samples cfg (traceFrom w (write cfg board v w).2) = [l]) :
    (write cfg board v w).1 = l.toNat ^^^ 1 ∧
      (l = .LOW → (write cfg board v w).1 = 1) ∧
      (l = .HIGH → (write cfg board v w).1 = 0) ∧
      ∀ (board1 : Board) (v1 : Nat) (w1 : World),
        samples cfg (traceFrom w1 (write cfg board1 v1 w1).2) = [l] →
          (write cfg board1 v1 w1).1 = (write cfg board v w).1 := by
  rw [write_samples] at hl
  have h0 : (write cfg board v w).1 = (l.toNat ^^^ 0x1) % 256 := by
    rw [write_fst]
    simp only [List.cons.injEq, and_true] at hl
    rw [hl]
  refine ⟨?_, ?_, ?_, ?_⟩
  · rw [h0]; exact (xor_one_of_level l).1
  · intro h; rw [h0]; exact (xor_one_of_level l).2.1 h
  · intro h; rw [h0]; exact (xor_one_of_level l).2.2 h
  · intro board1 v1 w1 h1
    rw [write_samples] at h1
    simp only [List.cons.injEq, and_true] at h1
    rw [h0, write_fst, h1]

/-- Witness of `write_returns_inverted_ack`: a device that holds DATA low. -/
theorem write_returns_inverted_ack_witness :
    samples cfg23 (traceFrom resetWorld (write cfg23 (fun _ _ => .LOW) 0xA5 resetWorld).2) =
        [.LOW] ∧
      (write cfg23 (fun _ _ => .LOW) 0xA5 resetWorld).1 = 1 :=
  ⟨by decide,
    (write_returns_inverted_ack cfg23 (fun _ _ => .LOW) 0xA5 resetWorld .LOW
      (by decide)).2.1 rfl⟩

/-! ## Stop condition -/

/-- C4 (as amended): when CLOCK is asserted, the output bit of the DATA pin is
`LOW` (as `begin()` leaves it) and the two lines are on distinct pins,
`stopCondition()` performs assert DATA, release CLOCK, release DATA, each
followed by one delay: CLOCK goes from asserted to released first, DATA goes
from asserted to released afterwards, while CLOCK is released, and both lines
end released. -/
theorem stopCondition_sequence (cfg : Config) (w : World)
    (hpins : cfg.T_DIO_PIN ≠ cfg.T_CLK_PIN)
    (hclk : lineState (w.pins cfg.T_CLK_PIN) = .asserted)
    (hdat : (w.pins cfg.T_DIO_PIN).out = .LOW) :
    events (traceFrom w (stopCondition cfg w)) =
        [.pinModeFast cfg.T_DIO_PIN .OUTPUT, .delayMicroseconds cfg.T_DELAY_MICROS,
         .pinModeFast cfg.T_CLK_PIN .INPUT, .delayMicroseconds cfg.T_DELAY_MICROS,
         .pinModeFast cfg.T_DIO_PIN .INPUT, .delayMicroseconds cfg.T_DELAY_MICROS] ∧
      lineStates cfg (traceFrom w (stopCondition cfg w)) =
        [(.asserted, .asserted), (.asserted, .asserted),
         (.released, .asserted), (.released, .asserted),
         (.released, .released), (.released, .released)] ∧
      lineState ((stopCondition cfg w).pins cfg.T_CLK_PIN) = .released ∧
      lineState ((stopCondition cfg w).pins cfg.T_DIO_PIN) = .released := by
  have hpins2 : cfg.T_CLK_PIN ≠ cfg.T_DIO_PIN := fun h => hpins h.symm
  rw [lineState_asserted_iff] at hclk
  simp [traceFrom, events, lineStates, stopCondition, clockHigh, dataHigh, dataLow,
    bitDelay, pinModeFast, delayMicroseconds, lineState, Function.update, hpins, hpins2,
    hclk.1, hclk.2, hdat]

/-- Witness of `stopCondition_sequence`: the state right after a start
condition on a board after reset. -/
theorem stopCondition_sequence_witness :
    lineState ((startCondition cfg23 resetWorld).pins cfg23.T_CLK_PIN) = .asserted ∧
      lineStates cfg23 (traceFrom (startCondition cfg23 resetWorld)
          (stopCondition cfg23 (startCondition cfg23 resetWorld))) =
        [(.asserted, .asserted), (.asserted, .asserted),
         (.released, .asserted), (.released, .asserted),
         (.released, .released), (.released, .released)] :=
  ⟨by decide,
    (stopCondition_sequence cfg23 (startCondition cfg23 resetWorld) (by decide) (by decide)
      (by decide)).2.1⟩

/-- C4 fails as stated: with CLOCK asserted but the DATA output bit `HIGH`,
`stopCondition()` never asserts DATA, so DATA does not go from asserted to
released: it is driven high until it is released. -/
theorem stopCondition_counterexample :
    lineState (clockOnlyWorld.pins cfg23.T_CLK_PIN) = .asserted ∧
      lineStates cfg23 (traceFrom clockOnlyWorld (stopCondition cfg23 clockOnlyWorld)) =
        [(.asserted, .drivenHigh), (.asserted, .drivenHigh),
         (.released, .drivenHigh), (.released, .drivenHigh),
         (.released, .released), (.released, .released)] := by
  decide

/-! ## CLOCK after `write` -/

lemma write_pins_clk (cfg : Config) (board : Board) (v : Nat) (w : World) :
    (write cfg board v w).2.pins cfg.T_CLK_PIN =
      { mode := .OUTPUT, out := (w.pins cfg.T_CLK_PIN).out } := by
  have h := writeLoop_out cfg 8 v w cfg.T_CLK_PIN
  rw [write_snd]
  by_cases hpins : cfg.T_CLK_PIN = cfg.T_DIO_PIN
  · simp [readAck, clockHigh, clockLow, dataHigh, bitDelay, pinModeFast, delayMicroseconds,
      digitalReadFast, Function.update, hpins] at h ⊢
    exact h
  · simp [readAck, clockHigh, clockLow, dataHigh, bitDelay, pinModeFast, delayMicroseconds,
      digitalReadFast, Function.update, hpins]
    exact h

/-- C6 (as amended): when the output bit of the CLOCK pin is `LOW` (as
`begin()` leaves it), `write(v)` ends with CLOCK asserted (low), for every
byte and every sampled ACK level. -/
theorem write_ends_clock_asserted (cfg : Config) (board : Board) (v : Nat) (w : World)
    (hclk : (w.pins cfg.T_CLK_PIN).out = .LOW) :
    lineState ((write cfg board v w).2.pins cfg.T_CLK_PIN) = .asserted := by
  rw [write_pins_clk, hclk]
  rfl

/-- Witness of `write_ends_clock_asserted` on a board after reset. -/
theorem write_ends_clock_asserted_witness :
    (resetWorld.pins cfg23.T_CLK_PIN).out = .LOW ∧
      lineState ((write cfg23 (fun _ _ => .HIGH) 0xFF resetWorld).2.pins cfg23.T_CLK_PIN) =
        .asserted :=
  ⟨rfl, write_ends_clock_asserted cfg23 (fun _ _ => .HIGH) 0xFF resetWorld rfl⟩

/-- C6 fails as stated: from a pin state whose CLOCK output bit is `HIGH`,
`write` ends with the CLOCK pin in `OUTPUT` mode driving the line high. -/
theorem write_ends_clock_counterexample :
    lineState ((write cfg23 (fun _ _ => .LOW) 0x00 pullupWorld).2.pins cfg23.T_CLK_PIN) =
      .drivenHigh := by
  decide

/-! ## The open-drain discipline -/

lemma KeepsOut.refl (w : World) : KeepsOut w w :=
  ⟨List.prefix_refl _, fun _ => rfl, by simp [traceFrom_self]⟩

lemma KeepsOut.trans {w w1 w2 : World} (h1 : KeepsOut w w1) (h2 : KeepsOut w1 w2) :
    KeepsOut w w2 := by
  refine ⟨h1.1.trans h2.1, fun p => by rw [h2.2.1, h1.2.1], ?_⟩
  intro s hs p
  rw [traceFrom_append h1.1 h2.1, List.mem_append] at hs
  rcases hs with hs | hs
  · exact h1.2.2 s hs p
  · rw [h2.2.2 s hs p, h1.2.1]

lemma pinModeFast_keepsOut (pin : Nat) (m : PinMode) (w : World) :
    KeepsOut w (pinModeFast pin m w) := by
  refine ⟨by simp [pinModeFast], ?_, ?_⟩
  · intro p
    simp only [pinModeFast, Function.update_apply]
    split_ifs with h
    · rw [h]
    · rfl
  · intro s hs p
    simp only [traceFrom, pinModeFast, List.drop_left, List.mem_singleton] at hs
    rw [hs]
    simp only [Function.update_apply]
    split_ifs with h
    · rw [h]
    · rfl

lemma delayMicroseconds_keepsOut (us : Nat) (w : World) :
    KeepsOut w (delayMicroseconds us w) := by
  refine ⟨by simp [delayMicroseconds], fun _ => rfl, ?_⟩
  intro s hs p
  simp only [traceFrom, delayMicroseconds, List.drop_left, List.mem_singleton] at hs
  rw [hs]

lemma digitalReadFast_keepsOut (board : Board) (pin : Nat) (w : World) :
    KeepsOut w (digitalReadFast board pin w).2 := by
  refine ⟨by simp [digitalReadFast], fun _ => rfl, ?_⟩
  intro s hs p
  simp only [traceFrom, digitalReadFast, List.drop_left, List.mem_singleton] at hs
  rw [hs]

lemma clockHigh_keepsOut (cfg : Config) (w : World) : KeepsOut w (clockHigh cfg w) :=
  (pinModeFast_keepsOut _ _ w).trans (delayMicroseconds_keepsOut _ _)

lemma clockLow_keepsOut (cfg : Config) (w : World) : KeepsOut w (clockLow cfg w) :=
  (pinModeFast_keepsOut _ _ w).trans (delayMicroseconds_keepsOut _ _)

lemma dataHigh_keepsOut (cfg : Config) (w : World) : KeepsOut w (dataHigh cfg w) :=
  (pinModeFast_keepsOut _ _ w).trans (delayMicroseconds_keepsOut _ _)

lemma dataLow_keepsOut (cfg : Config) (w : World) : KeepsOut w (dataLow cfg w) :=
  (pinModeFast_keepsOut _ _ w).trans (delayMicroseconds_keepsOut _ _)

lemma end_keepsOut (cfg : Config) (w : World) : KeepsOut w («end» cfg w) :=
  (clockHigh_keepsOut cfg w).trans (dataHigh_keepsOut cfg _)

lemma startCondition_keepsOut (cfg : Config) (w : World) :
    KeepsOut w (startCondition cfg w) :=
  (((clockHigh_keepsOut cfg w).trans (dataHigh_keepsOut cfg _)).trans
    (dataLow_keepsOut cfg _)).trans (clockLow_keepsOut cfg _)

lemma stopCondition_keepsOut (cfg : Config) (w : World) :
    KeepsOut w (stopCondition cfg w) :=
  ((dataLow_keepsOut cfg w).trans (clockHigh_keepsOut cfg _)).trans (dataHigh_keepsOut cfg _)

lemma bitCell_keepsOut (cfg : Config) (d : Nat) (w : World) :
    KeepsOut w (bitCell cfg d w) := by
  unfold bitCell
  split
  · exact ((dataHigh_keepsOut cfg w).trans (clockHigh_keepsOut cfg _)).trans
      (clockLow_keepsOut cfg _)
  · exact ((dataLow_keepsOut cfg w).trans (clockHigh_keepsOut cfg _)).trans
      (clockLow_keepsOut cfg _)

lemma writeLoop_keepsOut (cfg : Config) (n : Nat) :
    ∀ (d : Nat) (w : World), KeepsOut w (writeLoop cfg n d w) := by
  induction n with
  | zero => intro d w; exact KeepsOut.refl w
  | succ n ih =>
    intro d w
    rw [writeLoop_succ]
    exact (bitCell_keepsOut cfg d w).trans (ih _ _)

lemma readAck_keepsOut (cfg : Config) (board : Board) (w : World) :
    KeepsOut w (readAck cfg board w).2 :=
  (((dataHigh_keepsOut cfg w).trans (clockHigh_keepsOut cfg _)).trans
    (digitalReadFast_keepsOut board _ _)).trans (clockLow_keepsOut cfg _)

lemma write_keepsOut (cfg : Config) (board : Board) (v : Nat) (w : World) :
    KeepsOut w (write cfg board v w).2 := by
  rw [write_snd]
  exact (writeLoop_keepsOut cfg 8 v w).trans (readAck_keepsOut cfg board _)

lemma run_keepsOut (cfg : Config) (board : Board) (c : Call) (w : World) :
    KeepsOut w (runCall cfg board c w) := by
  cases c
  · exact end_keepsOut cfg w
  · exact startCondition_keepsOut cfg w
  · exact stopCondition_keepsOut cfg w
  · exact write_keepsOut cfg board _ w

lemma runCalls_keepsOut (cfg : Config) (board : Board) (calls : List Call) :
    ∀ w : World, KeepsOut w (runCalls cfg board calls w) := by
  induction calls with
  | nil => intro w; exact KeepsOut.refl w
  | cons c cs ih => intro w; exact (run_keepsOut cfg board c w).trans (ih _)

lemma notDrivenHigh_of_out_low (p : Pin) (h : p.out = .LOW) : notDrivenHigh p := by
  rcases p with ⟨m, o⟩
  subst h
  refine ⟨by simp, ?_⟩
  intro dev
  cases m <;> simp [lineLevel]

lemma begin_out_low (cfg : Config) (w : World) :
    ((begin cfg w).pins cfg.T_CLK_PIN).out = .LOW ∧
      ((begin cfg w).pins cfg.T_DIO_PIN).out = .LOW := by
  by_cases h : cfg.T_CLK_PIN = cfg.T_DIO_PIN
  · simp [begin, clockHigh, dataHigh, bitDelay, pinModeFast, delayMicroseconds,
      digitalWriteFast, Function.update, h]
  · have h2 : cfg.T_DIO_PIN ≠ cfg.T_CLK_PIN := fun e => h e.symm
    simp [begin, clockHigh, dataHigh, bitDelay, pinModeFast, delayMicroseconds,
      digitalWriteFast, Function.update, h, h2]

/-- C5: after `begin()`, through every sequence of `end`, `startCondition`,
`stopCondition` and `write` calls, in the state `begin()` leaves, in the state
after every single pin-layer call and in the final state, neither the CLOCK
pin nor the DATA pin is in `OUTPUT` mode with output bit `HIGH`, and either
line can be high only with its pin in `INPUT` mode. -/
theorem never_driven_high (cfg : Config) (board : Board) (calls : List Call) (w : World) :
    (notDrivenHigh ((begin cfg w).pins cfg.T_CLK_PIN) ∧
        notDrivenHigh ((begin cfg w).pins cfg.T_DIO_PIN)) ∧
      (∀ s ∈ traceFrom (begin cfg w) (runCalls cfg board calls (begin cfg w)),
        notDrivenHigh (s.pins cfg.T_CLK_PIN) ∧ notDrivenHigh (s.pins cfg.T_DIO_PIN)) ∧
      (notDrivenHigh ((runCalls cfg board calls (begin cfg w)).pins cfg.T_CLK_PIN) ∧
        notDrivenHigh ((runCalls cfg board calls (begin cfg w)).pins cfg.T_DIO_PIN)) := by
  have hk := runCalls_keepsOut cfg board calls (begin cfg w)
  have hb := begin_out_low cfg w
  refine ⟨⟨notDrivenHigh_of_out_low _ hb.1, notDrivenHigh_of_out_low _ hb.2⟩, ?_, ?_, ?_⟩
  · intro s hs
    exact ⟨notDrivenHigh_of_out_low _ (by rw [hk.2.2 s hs, hb.1]),
      notDrivenHigh_of_out_low _ (by rw [hk.2.2 s hs, hb.2])⟩
  · exact notDrivenHigh_of_out_low _ (by rw [hk.2.1, hb.1])
  · exact notDrivenHigh_of_out_low _ (by rw [hk.2.1, hb.2])

/-! ## A whole transaction -/

lemma stopCondition_released (cfg : Config) (w : World) :
    lineState ((stopCondition cfg w).pins cfg.T_CLK_PIN) = .released ∧
      lineState ((stopCondition cfg w).pins cfg.T_DIO_PIN) = .released := by
  by_cases h : cfg.T_CLK_PIN = cfg.T_DIO_PIN
  · simp [stopCondition, clockHigh, dataHigh, dataLow, bitDelay, pinModeFast,
      delayMicroseconds, lineState, Function.update, h]
  · have h2 : cfg.T_DIO_PIN ≠ cfg.T_CLK_PIN := fun e => h e.symm
    simp [stopCondition, clockHigh, dataHigh, dataLow, bitDelay, pinModeFast,
      delayMicroseconds, lineState, Function.update, h, h2]

lemma ackWindow_data_released (cfg : Config) (w : World) :
    ((clockHigh cfg (dataHigh cfg w)).pins cfg.T_DIO_PIN).mode = .INPUT := by
  by_cases h : cfg.T_CLK_PIN = cfg.T_DIO_PIN
  · simp [clockHigh, dataHigh, bitDelay, pinModeFast, delayMicroseconds, Function.update, h]
  · have h2 : cfg.T_DIO_PIN ≠ cfg.T_CLK_PIN := fun e => h e.symm
    simp [clockHigh, dataHigh, bitDelay, pinModeFast, delayMicroseconds, Function.update, h, h2]

/-- C7: against a device that pulls DATA low in every ACK window, the
transaction `startCondition(); write(v); stopCondition()` makes `write` return
1 for every byte `v`, and leaves both CLOCK and DATA released; this holds from
every state, the idle state (both lines released) included. -/
theorem transaction_roundtrip (cfg : Config) (device : World → Nat → Bool) (v : Nat)
    (w : World)
    (hdev : ∀ x : World, inAckWindow cfg x → device x cfg.T_DIO_PIN = true) :
    (write cfg (openDrainBoard device) v (startCondition cfg w)).1 = 1 ∧
      lineState ((stopCondition cfg
        (write cfg (openDrainBoard device) v (startCondition cfg w)).2).pins
          cfg.T_CLK_PIN) = .released ∧
      lineState ((stopCondition cfg
        (write cfg (openDrainBoard device) v (startCondition cfg w)).2).pins
          cfg.T_DIO_PIN) = .released := by
  refine ⟨?_, stopCondition_released cfg _⟩
  have hwin : inAckWindow cfg
      (clockHigh cfg (dataHigh cfg (writeLoop cfg 8 v (startCondition cfg w)))) :=
    ⟨startCondition cfg w, v, rfl⟩
  rw [write_fst]
  simp only [openDrainBoard, lineLevel, ackWindow_data_released, hdev _ hwin]
  rfl

/-- Witness of `transaction_roundtrip`: the byte `0x3F` sent from the idle
state to a device that always pulls DATA low. -/
theorem transaction_roundtrip_witness :
    (lineState (resetWorld.pins cfg23.T_CLK_PIN) = .released ∧
        lineState (resetWorld.pins cfg23.T_DIO_PIN) = .released) ∧
      (write cfg23 (openDrainBoard alwaysAck) 0x3F (startCondition cfg23 resetWorld)).1 = 1 ∧
      lineState ((stopCondition cfg23
        (write cfg23 (openDrainBoard alwaysAck) 0x3F (startCondition cfg23 resetWorld)).2).pins
          cfg23.T_DIO_PIN) = .released :=
  ⟨⟨rfl, rfl⟩, (transaction_roundtrip cfg23 alwaysAck 0x3F resetWorld (fun _ _ => rfl)).1,
    (transaction_roundtrip cfg23 alwaysAck 0x3F resetWorld (fun _ _ => rfl)).2.2⟩

/-! ## `begin` and `end` -/

lemma end_pins (cfg : Config) (w : World) (p : Nat) :
    («end» cfg w).pins p =
      if p = cfg.T_CLK_PIN ∨ p = cfg.T_DIO_PIN then { mode := .INPUT, out := (w.pins p).out }
      else w.pins p := by
  by_cases h1 : p = cfg.T_CLK_PIN <;> by_cases h2 : p = cfg.T_DIO_PIN
  · subst h1
    simp [«end», clockHigh, dataHigh, bitDelay, pinModeFast, delayMicroseconds,
      Function.update, ← h2]
  · subst h1
    simp [«end», clockHigh, dataHigh, bitDelay, pinModeFast, delayMicroseconds,
      Function.update, h2]
  · subst h2
    simp [«end», clockHigh, dataHigh, bitDelay, pinModeFast, delayMicroseconds,
      Function.update, h1]
  · simp [«end», clockHigh, dataHigh, bitDelay, pinModeFast, delayMicroseconds,
      Function.update, h1, h2]

lemma begin_pins (cfg : Config) (w : World) (p : Nat) :
    (begin cfg w).pins p =
      if p = cfg.T_CLK_PIN ∨ p = cfg.T_DIO_PIN then { mode := .INPUT, out := .LOW }
      else w.pins p := by
  by_cases h1 : p = cfg.T_CLK_PIN <;> by_cases h2 : p = cfg.T_DIO_PIN
  · subst h1
    simp [begin, clockHigh, dataHigh, bitDelay, pinModeFast, delayMicroseconds,
      digitalWriteFast, Function.update, ← h2]
  · subst h1
    simp [begin, clockHigh, dataHigh, bitDelay, pinModeFast, delayMicroseconds,
      digitalWriteFast, Function.update, h2]
  · subst h2
    simp [begin, clockHigh, dataHigh, bitDelay, pinModeFast, delayMicroseconds,
      digitalWriteFast, Function.update, h1]
  · simp [begin, clockHigh, dataHigh, bitDelay, pinModeFast, delayMicroseconds,
      digitalWriteFast, Function.update, h1, h2]

/-- C8 (as amended): from every prior pin state `begin()` and `end()` both
leave CLOCK and DATA released and leave every pin in the same mode; the whole
pin state after `end()` equals the one after `begin()` when the output bits of
the CLOCK and DATA pins were `LOW` before. -/
theorem end_matches_begin (cfg : Config) (w : World) :
    (lineState ((begin cfg w).pins cfg.T_CLK_PIN) = .released ∧
        lineState ((begin cfg w).pins cfg.T_DIO_PIN) = .released) ∧
      (lineState ((«end» cfg w).pins cfg.T_CLK_PIN) = .released ∧
        lineState ((«end» cfg w).pins cfg.T_DIO_PIN) = .released) ∧
      (∀ p, ((«end» cfg w).pins p).mode = ((begin cfg w).pins p).mode) ∧
      ((w.pins cfg.T_CLK_PIN).out = .LOW → (w.pins cfg.T_DIO_PIN).out = .LOW →
        («end» cfg w).pins = (begin cfg w).pins) := by
  refine ⟨?_, ?_, ?_, ?_⟩
  · simp [begin_pins, lineState]
  · simp [end_pins, lineState]
  · intro p
    rw [end_pins, begin_pins]
    split_ifs <;> rfl
  · intro hclk hdat
    funext p
    rw [end_pins, begin_pins]
    split_ifs with h
    · rcases h with h | h <;> subst h
      · rw [hclk]
      · rw [hdat]
    · rfl

/-- Witness of `end_matches_begin` on a board after reset. -/
theorem end_matches_begin_witness :
    («end» cfg23 resetWorld).pins = (begin cfg23 resetWorld).pins :=
  (end_matches_begin cfg23 resetWorld).2.2.2 rfl rfl

/-- C8 fails as stated: from a pin state whose output bits are `HIGH`, the
CLOCK pin keeps output bit `HIGH` through `end()` and gets output bit `LOW`
from `begin()`, so the two states differ. -/
theorem end_matches_begin_counterexample :
    («end» cfg23 pullupWorld).pins cfg23.T_CLK_PIN = { mode := .INPUT, out := .HIGH } ∧
      (begin cfg23 pullupWorld).pins cfg23.T_CLK_PIN = { mode := .INPUT, out := .LOW } ∧
      («end» cfg23 pullupWorld).pins ≠ (begin cfg23 pullupWorld).pins := by
  refine ⟨by decide, by decide, ?_⟩
  intro h
  have h3 := congrFun h cfg23.T_CLK_PIN
  revert h3
  decide

/-- C9: `begin()` twice ends in the same pin state as `begin()` once, and
`end()` twice ends in the same pin state as `end()` once. -/
theorem begin_end_idempotent (cfg : Config) (w : World) :
    (begin cfg (begin cfg w)).pins = (begin cfg w).pins ∧
      («end» cfg («end» cfg w)).pins = («end» cfg w).pins := by
  constructor
  · funext p
    rw [begin_pins, begin_pins]
    split_ifs <;> rfl
  · funext p
    rw [end_pins, end_pins]
    split_ifs <;> rfl

/-! ## Timing: one delay after every transition -/

lemma events_append (a b : List Step) : events (a ++ b) = events a ++ events b := by
  simp [events]

lemma bitCell_events (cfg : Config) (d : Nat) (w : World) :
    events (traceFrom w (bitCell cfg d w)) =
      [.pinModeFast cfg.T_DIO_PIN (if d &&& 0x1 ≠ 0 then .INPUT else .OUTPUT),
       .delayMicroseconds cfg.T_DELAY_MICROS,
       .pinModeFast cfg.T_CLK_PIN .INPUT, .delayMicroseconds cfg.T_DELAY_MICROS,
       .pinModeFast cfg.T_CLK_PIN .OUTPUT, .delayMicroseconds cfg.T_DELAY_MICROS] := by
  unfold bitCell
  split <;>
    simp [traceFrom, events, clockHigh, clockLow, dataHigh, dataLow, bitDelay, pinModeFast,
      delayMicroseconds]

lemma readAck_events (cfg : Config) (board : Board) (w : World) :
    events (traceFrom w (readAck cfg board w).2) =
      [.pinModeFast cfg.T_DIO_PIN .INPUT, .delayMicroseconds cfg.T_DELAY_MICROS,
       .pinModeFast cfg.T_CLK_PIN .INPUT, .delayMicroseconds cfg.T_DELAY_MICROS,
       .digitalReadFast cfg.T_DIO_PIN (board (clockHigh cfg (dataHigh cfg w)) cfg.T_DIO_PIN),
       .pinModeFast cfg.T_CLK_PIN .OUTPUT, .delayMicroseconds cfg.T_DELAY_MICROS] := by
  simp [traceFrom, events, readAck, clockHigh, clockLow, dataHigh, bitDelay, pinModeFast,
    delayMicroseconds, digitalReadFast]

lemma writeLoop_timed (cfg : Config) (n : Nat) :
    ∀ (d : Nat) (w : World) (rest : List Event),
      delayAfterEachTransition cfg.T_DELAY_MICROS
          (events (traceFrom w (writeLoop cfg n d w)) ++ rest) =
        delayAfterEachTransition cfg.T_DELAY_MICROS rest := by
  induction n with
  | zero => intro d w rest; simp [writeLoop, traceFrom_self, events]
  | succ n ih =>
    intro d w rest
    rw [traceFrom_writeLoop_succ, events_append, bitCell_events, List.append_assoc]
    simp [delayAfterEachTransition, ih]

lemma writeLoop_counts (cfg : Config) (n : Nat) :
    ∀ (d : Nat) (w : World),
      (events (traceFrom w (writeLoop cfg n d w))).countP isDelay = 3 * n ∧
        (events (traceFrom w (writeLoop cfg n d w))).countP isTransition = 3 * n := by
  induction n with
  | zero => intro d w; simp [writeLoop, traceFrom_self, events]
  | succ n ih =>
    intro d w
    rw [traceFrom_writeLoop_succ, events_append, bitCell_events, List.countP_append,
      List.countP_append, (ih _ _).1, (ih _ _).2]
    simp [List.countP_cons, isDelay, isTransition]
    omega

/-- C10: in the event trace of `begin`, `end`, `startCondition`,
`stopCondition` and `write(v)` (every byte, every device), every line-state
transition (a release or assertion through the pin mode) is immediately
followed by exactly one delay of `T_DELAY_MICROS`, and no other delay occurs;
the delays and the transitions number 2 each for `begin` and for `end`, 4 for
`startCondition`, 3 for `stopCondition` and 27 for `write`. -/
theorem delay_after_every_transition (cfg : Config) (board : Board) (v : Nat) (w : World) :
    (delayAfterEachTransition cfg.T_DELAY_MICROS (events (traceFrom w (begin cfg w))) = true ∧
        (events (traceFrom w (begin cfg w))).countP isDelay = 2 ∧
        (events (traceFrom w (begin cfg w))).countP isTransition = 2) ∧
      (delayAfterEachTransition cfg.T_DELAY_MICROS (events (traceFrom w («end» cfg w))) = true ∧
        (events (traceFrom w («end» cfg w))).countP isDelay = 2 ∧
        (events (traceFrom w («end» cfg w))).countP isTransition = 2) ∧
      (delayAfterEachTransition cfg.T_DELAY_MICROS
          (events (traceFrom w (startCondition cfg w))) = true ∧
        (events (traceFrom w (startCondition cfg w))).countP isDelay = 4 ∧
        (events (traceFrom w (startCondition cfg w))).countP isTransition = 4) ∧
      (delayAfterEachTransition cfg.T_DELAY_MICROS
          (events (traceFrom w (stopCondition cfg w))) = true ∧
        (events (traceFrom w (stopCondition cfg w))).countP isDelay = 3 ∧
        (events (traceFrom w (stopCondition cfg w))).countP isTransition = 3) ∧
      (delayAfterEachTransition cfg.T_DELAY_MICROS
          (events (traceFrom w (write cfg board v w).2)) = true ∧
        (events (traceFrom w (write cfg board v w).2)).countP isDelay = 27 ∧
        (events (traceFrom w (write cfg board v w).2)).countP isTransition = 27) := by
  refine ⟨?_, ?_, ?_, ?_, ?_⟩
  · simp [traceFrom, events, begin, clockHigh, dataHigh, bitDelay, pinModeFast,
      delayMicroseconds, digitalWriteFast, delayAfterEachTransition, List.countP_cons,
      isDelay, isTransition]
  · simp [traceFrom, events, «end», clockHigh, dataHigh, bitDelay, pinModeFast,
      delayMicroseconds, delayAfterEachTransition, List.countP_cons, isDelay, isTransition]
  · simp [traceFrom, events, startCondition, clockHigh, clockLow, dataHigh, dataLow, bitDelay,
      pinModeFast, delayMicroseconds, delayAfterEachTransition, List.countP_cons, isDelay,
      isTransition]
  · simp [traceFrom, events, stopCondition, clockHigh, dataHigh, dataLow, bitDelay,
      pinModeFast, delayMicroseconds, delayAfterEachTransition, List.countP_cons, isDelay,
      isTransition]
  · rw [write_trace, events_append, readAck_events]
    refine ⟨?_, ?_, ?_⟩
    · rw [writeLoop_timed]
      simp [delayAfterEachTransition]
    · rw [List.countP_append, (writeLoop_counts cfg 8 v w).1]
      simp [List.countP_cons, isDelay]
    · rw [List.countP_append, (writeLoop_counts cfg 8 v w).2]
      simp [List.countP_cons, isTransition]

/-! ## The event trace of `write` -/

lemma bitMode_zero (d : Nat) :
    (if d &&& 0x1 ≠ 0 then PinMode.INPUT else PinMode.OUTPUT) = bitMode d 0 := by
  simp [bitMode]

lemma bitMode_shift (d i : Nat) : bitMode (d >>> 1) i = bitMode d (i + 1) := by
  unfold bitMode
  rw [← Nat.shiftRight_add, Nat.add_comm]

lemma cellsEvents_succ (cfg : Config) (n d : Nat) :
    cellsEvents cfg (n + 1) d = cellEvents cfg (bitMode d 0) ++ cellsEvents cfg n (d >>> 1) := by
  simp [cellsEvents, List.range_succ_eq_map, List.flatMap_map, Function.comp_def,
    bitMode_shift]

lemma writeLoop_events (cfg : Config) (n : Nat) :
    ∀ (d : Nat) (w : World),
      events (traceFrom w (writeLoop cfg n d w)) = cellsEvents cfg n d := by
  induction n with
  | zero => intro d w; simp [writeLoop, traceFrom_self, events, cellsEvents]
  | succ n ih =>
    intro d w
    rw [traceFrom_writeLoop_succ, events_append, bitCell_events, ih, cellsEvents_succ,
      bitMode_zero]
    rfl

lemma write_events (cfg : Config) (board : Board) (v : Nat) (w : World) :
    events (traceFrom w (write cfg board v w).2) =
      writeEvents cfg v
        (board (clockHigh cfg (dataHigh cfg (writeLoop cfg 8 v w))) cfg.T_DIO_PIN) := by
  rw [write_trace, events_append, writeLoop_events, readAck_events]
  rfl

/-! ## A single-shot sample -/

lemma events_length (l : List Step) : (events l).length = l.length := by
  simp [events]

lemma writeEvents_length (cfg : Config) (v : Nat) (l : Level) :
    (writeEvents cfg v l).length = 55 := by
  have h8 : List.range 8 = [0, 1, 2, 3, 4, 5, 6, 7] := by decide
  simp [writeEvents, cellsEvents, cellEvents, ackEvents, h8]

lemma readAck_countRead (cfg : Config) (board : Board) (w : World) :
    (traceFrom w (readAck cfg board w).2).countP isRead = 1 := by
  simp [traceFrom, readAck, clockHigh, clockLow, dataHigh, bitDelay, pinModeFast,
    delayMicroseconds, digitalReadFast, List.countP_cons, isRead]

lemma write_countRead (cfg : Config) (board : Board) (v : Nat) (w : World) :
    (traceFrom w (write cfg board v w).2).countP isRead = 1 := by
  have h0 : (traceFrom w (writeLoop cfg 8 v w)).countP isRead = 0 := by
    rw [List.countP_eq_zero]
    intro s hs
    simp [writeLoop_noRead cfg 8 v w s hs]
  rw [write_trace, List.countP_append, h0, readAck_countRead]

/-- C11: `write` is a total function; for every byte, board and prior state it
logs exactly 55 pin-layer calls, exactly one of them a read, which is a read of
the DATA pin; and on an open-drain board whose device never pulls DATA low it
returns the NACK result 0. -/
theorem write_single_sample (cfg : Config) (board : Board) (device : World → Nat → Bool)
    (v : Nat) (w : World) (hdev : ∀ x : World, device x cfg.T_DIO_PIN = false) :
    (traceFrom w (write cfg board v w).2).length = 55 ∧
      (traceFrom w (write cfg board v w).2).countP isRead = 1 ∧
      (samples cfg (traceFrom w (write cfg board v w).2)).length = 1 ∧
      (traceFrom w (write cfg (openDrainBoard device) v w).2).length = 55 ∧
      (write cfg (openDrainBoard device) v w).1 = 0 := by
  have hlen : ∀ b : Board, (traceFrom w (write cfg b v w).2).length = 55 := by
    intro b
    rw [← events_length, write_events, writeEvents_length]
  refine ⟨hlen board, write_countRead cfg board v w, ?_, hlen _, ?_⟩
  · rw [write_samples]
    rfl
  · rw [write_fst]
    simp only [openDrainBoard, lineLevel, ackWindow_data_released, hdev]
    rfl

/-- Witness of `write_single_sample`: the byte `0x3F` sent to a device that
never responds. -/
theorem write_single_sample_witness :
    (∀ x : World, neverAck x cfg23.T_DIO_PIN = false) ∧
      (write cfg23 (openDrainBoard neverAck) 0x3F resetWorld).1 = 0 :=
  ⟨fun _ => rfl,
    (write_single_sample cfg23 (openDrainBoard neverAck) neverAck 0x3F resetWorld
      (fun _ => rfl)).2.2.2.2⟩

/-! ## The ACK window -/

lemma range_eight : List.range 8 = [0, 1, 2, 3, 4, 5, 6, 7] := by decide

lemma readAck_sample_state (cfg : Config) (board : Board) (w : World) :
    ∀ s ∈ traceFrom w (readAck cfg board w).2, isRead s = true →
      lineState (s.pins cfg.T_CLK_PIN) = .released ∧
        lineState (s.pins cfg.T_DIO_PIN) = .released := by
  intro s hs hr
  simp [traceFrom, readAck, clockHigh, clockLow, dataHigh, bitDelay, pinModeFast,
    delayMicroseconds, digitalReadFast] at hs
  rcases hs with h | h | h | h | h | h | h <;> rw [h] at hr ⊢ <;> simp [isRead] at hr
  by_cases hp : cfg.T_CLK_PIN = cfg.T_DIO_PIN
  · simp [lineState, Function.update, hp]
  · have hp2 : cfg.T_DIO_PIN ≠ cfg.T_CLK_PIN := fun e => hp e.symm
    simp [lineState, Function.update, hp, hp2]

lemma write_sample_state (cfg : Config) (board : Board) (v : Nat) (w : World) :
    ∀ s ∈ traceFrom w (write cfg board v w).2, isRead s = true →
      lineState (s.pins cfg.T_CLK_PIN) = .released ∧
        lineState (s.pins cfg.T_DIO_PIN) = .released := by
  intro s hs hr
  rw [write_trace, List.mem_append] at hs
  rcases hs with hs | hs
  · rw [writeLoop_noRead cfg 8 v w s hs] at hr
    exact absurd hr (by decide)
  · exact readAck_sample_state cfg board _ s hs hr

/-- C12: for every byte `v` (`0x00` included), with CLK and DIO on distinct
pins, what `write(v)` does after the eighth assertion of CLOCK (the falling
edge of the eighth bit cell) is exactly: release DATA, release CLOCK, sample
DATA, assert CLOCK, each pin-mode change followed by one delay; the sample is
taken with both CLOCK and DATA released by the host; the sequence depends on
the sampled level `l` only, not on `v`. -/
theorem ack_window_sequence (cfg : Config) (board : Board) (v : Nat) (w : World) (l : Level)
    (hpins : cfg.T_DIO_PIN ≠ cfg.T_CLK_PIN)
    (hl : samples cfg (traceFrom w (write cfg board v w).2) = [l]) :
    afterClockFall cfg (events (traceFrom w (write cfg board v w).2)) 8 =
        [.delayMicroseconds cfg.T_DELAY_MICROS,
         .pinModeFast cfg.T_DIO_PIN .INPUT, .delayMicroseconds cfg.T_DELAY_MICROS,
         .pinModeFast cfg.T_CLK_PIN .INPUT, .delayMicroseconds cfg.T_DELAY_MICROS,
         .digitalReadFast cfg.T_DIO_PIN l,
         .pinModeFast cfg.T_CLK_PIN .OUTPUT, .delayMicroseconds cfg.T_DELAY_MICROS] ∧
      ∀ s ∈ traceFrom w (write cfg board v w).2, isRead s = true →
        lineState (s.pins cfg.T_CLK_PIN) = .released ∧
          lineState (s.pins cfg.T_DIO_PIN) = .released := by
  refine ⟨?_, write_sample_state cfg board v w⟩
  rw [write_samples] at hl
  simp only [List.cons.injEq, and_true] at hl
  rw [write_events, hl]
  simp [writeEvents, cellsEvents, cellEvents, ackEvents, range_eight, afterClockFall, hpins]

/-- Witness of `ack_window_sequence`: `write(0x00)` to a device that holds
DATA low. -/
theorem ack_window_sequence_witness :
    samples cfg23 (traceFrom resetWorld (write cfg23 (fun _ _ => .LOW) 0x00 resetWorld).2) =
        [.LOW] ∧
      afterClockFall cfg23
          (events (traceFrom resetWorld (write cfg23 (fun _ _ => .LOW) 0x00 resetWorld).2)) 8 =
        [.delayMicroseconds 100,
         .pinModeFast 2 .INPUT, .delayMicroseconds 100,
         .pinModeFast 3 .INPUT, .delayMicroseconds 100,
         .digitalReadFast 2 .LOW,
         .pinModeFast 3 .OUTPUT, .delayMicroseconds 100] :=
  ⟨by decide,
    (ack_window_sequence cfg23 (fun _ _ => .LOW) 0x00 resetWorld .LOW (by decide)
      (by decide)).1⟩

/-! ## Clock phases -/

/-- C13: in the trace of `write(v)`, for every byte `v` and with CLK and DIO on
distinct pins, the CLOCK phases are eight times a released phase with one
delay followed by an asserted phase with two delays, and then the released
phase of the ACK cell with one delay: every CLOCK-asserted phase between a
falling edge and the next rising edge holds exactly two delays and every
CLOCK-released phase exactly one. -/
theorem write_clock_phases (cfg : Config) (board : Board) (v : Nat) (w : World)
    (hpins : cfg.T_DIO_PIN ≠ cfg.T_CLK_PIN) :
    clockPhases cfg (events (traceFrom w (write cfg board v w).2)) =
        [(.INPUT, 1), (.OUTPUT, 2), (.INPUT, 1), (.OUTPUT, 2), (.INPUT, 1), (.OUTPUT, 2),
         (.INPUT, 1), (.OUTPUT, 2), (.INPUT, 1), (.OUTPUT, 2), (.INPUT, 1), (.OUTPUT, 2),
         (.INPUT, 1), (.OUTPUT, 2), (.INPUT, 1), (.OUTPUT, 2), (.INPUT, 1)] ∧
      ∀ ph ∈ clockPhases cfg (events (traceFrom w (write cfg board v w).2)),
        (ph.1 = .OUTPUT → ph.2 = 2) ∧ (ph.1 = .INPUT → ph.2 = 1) := by
  have h : clockPhases cfg (events (traceFrom w (write cfg board v w).2)) =
      [(.INPUT, 1), (.OUTPUT, 2), (.INPUT, 1), (.OUTPUT, 2), (.INPUT, 1), (.OUTPUT, 2),
       (.INPUT, 1), (.OUTPUT, 2), (.INPUT, 1), (.OUTPUT, 2), (.INPUT, 1), (.OUTPUT, 2),
       (.INPUT, 1), (.OUTPUT, 2), (.INPUT, 1), (.OUTPUT, 2), (.INPUT, 1)] := by
    rw [write_events]
    simp [writeEvents, cellsEvents, cellEvents, ackEvents, range_eight, clockPhases,
      delaysUntilClock, PinMode.other, isDelay, hpins]
  refine ⟨h, ?_⟩
  rw [h]
  decide

/-- Witness of `write_clock_phases`: the byte `0xA5` on a board after reset. -/
theorem write_clock_phases_witness :
    cfg23.T_DIO_PIN ≠ cfg23.T_CLK_PIN ∧
      clockPhases cfg23
          (events (traceFrom resetWorld (write cfg23 (fun _ _ => .HIGH) 0xA5 resetWorld).2)) =
        [(.INPUT, 1), (.OUTPUT, 2), (.INPUT, 1), (.OUTPUT, 2), (.INPUT, 1), (.OUTPUT, 2),
         (.INPUT, 1), (.OUTPUT, 2), (.INPUT, 1), (.OUTPUT, 2), (.INPUT, 1), (.OUTPUT, 2),
         (.INPUT, 1), (.OUTPUT, 2), (.INPUT, 1), (.OUTPUT, 2), (.INPUT, 1)] :=
  ⟨by decide,
    (write_clock_phases cfg23 (fun _ _ => .HIGH) 0xA5 resetWorld (by decide)).1⟩

/-! ## The state table -/

lemma lineState_released_of_mode {p : Pin} (h : p.mode = .INPUT) : lineState p = .released := by
  rcases p with ⟨m, o⟩
  cases h
  rfl

lemma startCondition_clk_mode (cfg : Config) (w : World) :
    ((startCondition cfg w).pins cfg.T_CLK_PIN).mode = .OUTPUT := by
  simp [startCondition, clockHigh, clockLow, dataHigh, dataLow, bitDelay, pinModeFast,
    delayMicroseconds]

lemma stopCondition_modes (cfg : Config) (w : World) :
    ((stopCondition cfg w).pins cfg.T_CLK_PIN).mode = .INPUT ∧
      ((stopCondition cfg w).pins cfg.T_DIO_PIN).mode = .INPUT := by
  by_cases h : cfg.T_CLK_PIN = cfg.T_DIO_PIN
  · simp [stopCondition, clockHigh, dataHigh, dataLow, bitDelay, pinModeFast,
      delayMicroseconds, Function.update, h]
  · have h2 : cfg.T_DIO_PIN ≠ cfg.T_CLK_PIN := fun e => h e.symm
    simp [stopCondition, clockHigh, dataHigh, dataLow, bitDelay, pinModeFast,
      delayMicroseconds, Function.update, h, h2]

lemma tableInv_begin (cfg : Config) (w : World) : tableInv cfg .Idle (begin cfg w) := by
  simp [tableInv, begin_pins]

lemma tableInv_step (cfg : Config) (board : Board) (st st1 : BusState) (c : Call) (x : World)
    (hn : nextState st c = some st1) (hx : tableInv cfg st x) :
    entryOk cfg c x ∧ tableInv cfg st1 (runCall cfg board c x) := by
  cases st <;> cases c <;> simp [nextState] at hn <;> subst hn
  · refine ⟨trivial, ?_⟩
    obtain ⟨⟨h1, h2⟩, _, _⟩ := hx
    simp [tableInv, runCall, end_pins, h1, h2]
  · obtain ⟨⟨h1, h2⟩, h3, h4⟩ := hx
    refine ⟨⟨lineState_released_of_mode h3, lineState_released_of_mode h4⟩, ?_⟩
    have hk := startCondition_keepsOut cfg x
    exact ⟨⟨(hk.2.1 _).trans h1, (hk.2.1 _).trans h2⟩, startCondition_clk_mode cfg x⟩
  · obtain ⟨⟨h1, h2⟩, h3⟩ := hx
    refine ⟨(lineState_asserted_iff _).2 ⟨h3, h1⟩, ?_⟩
    have hk := stopCondition_keepsOut cfg x
    exact ⟨⟨(hk.2.1 _).trans h1, (hk.2.1 _).trans h2⟩, stopCondition_modes cfg x⟩
  · obtain ⟨⟨h1, h2⟩, h3⟩ := hx
    refine ⟨(lineState_asserted_iff _).2 ⟨h3, h1⟩, ?_⟩
    rename_i data
    have hk := write_keepsOut cfg board data x
    refine ⟨⟨(hk.2.1 _).trans h1, (hk.2.1 _).trans h2⟩, ?_⟩
    show ((write cfg board data x).2.pins cfg.T_CLK_PIN).mode = .OUTPUT
    rw [write_pins_clk]

lemma entries_ok (cfg : Config) (board : Board) (calls : List Call) :
    ∀ (st : BusState) (x : World), followsTable st calls = true → tableInv cfg st x →
      ∀ e ∈ entries cfg board calls x, entryOk cfg e.1 e.2 := by
  induction calls with
  | nil => intro st x _ _ e he; simp [entries] at he
  | cons c cs ih =>
    intro st x hf hx e he
    simp only [followsTable] at hf
    cases hn : nextState st c with
    | none => simp [hn] at hf
    | some st1 =>
      rw [hn] at hf
      have hstep := tableInv_step cfg board st st1 c x hn hx
      simp only [entries, List.mem_cons] at he
      rcases he with he | he
      · rw [he]; exact hstep.1
      · exact ih st1 _ hf hstep.2 e he

/-- C14: after `begin()` from any prior state, for every call sequence that
follows the state table (`end()` or `startCondition()` while idle, `write()`
with any byte and any sampled level or `stopCondition()` while the bus is
active), CLOCK is asserted (low) on entry to every `write()` and every
`stopCondition()`, and both lines are released on entry to every
`startCondition()`. -/
theorem preconditions_hold (cfg : Config) (board : Board) (calls : List Call) (w : World)
    (hcalls : followsTable .Idle calls = true) :
    ∀ e ∈ entries cfg board calls (begin cfg w), entryOk cfg e.1 e.2 :=
  entries_ok cfg board calls .Idle (begin cfg w) hcalls (tableInv_begin cfg w)

/-- Witness of `preconditions_hold`: two transactions after `begin()` on a
board whose output bits were `HIGH`. -/
theorem preconditions_hold_witness :
    followsTable .Idle sampleCalls = true ∧
      ∀ e ∈ entries cfg23 (fun _ _ => .LOW) sampleCalls (begin cfg23 pullupWorld),
        entryOk cfg23 e.1 e.2 :=
  ⟨by decide, preconditions_hold cfg23 (fun _ _ => .LOW) sampleCalls pullupWorld (by decide)⟩

/-! ## DATA changes only while CLOCK is asserted -/

lemma clockAtDataChange_append (cfg : Config) (a b : List Step) :
    clockAtDataChange cfg (a ++ b) = clockAtDataChange cfg a ++ clockAtDataChange cfg b := by
  simp [clockAtDataChange]

lemma bitCell_clockAtDataChange (cfg : Config) (d : Nat) (w : World)
    (hpins : cfg.T_DIO_PIN ≠ cfg.T_CLK_PIN)
    (hclk : lineState (w.pins cfg.T_CLK_PIN) = .asserted) :
    clockAtDataChange cfg (traceFrom w (bitCell cfg d w)) = [.asserted] ∧
      lineState ((bitCell cfg d w).pins cfg.T_CLK_PIN) = .asserted := by
  have hpins2 : cfg.T_CLK_PIN ≠ cfg.T_DIO_PIN := fun h => hpins h.symm
  rw [lineState_asserted_iff] at hclk
  unfold bitCell
  split <;>
    simp [traceFrom, clockAtDataChange, isDataChange, clockHigh, clockLow, dataHigh, dataLow,
      bitDelay, pinModeFast, delayMicroseconds, lineState, Function.update, hpins, hpins2,
      hclk.1, hclk.2, List.filter_cons]

lemma writeLoop_clockAtDataChange (cfg : Config) (hpins : cfg.T_DIO_PIN ≠ cfg.T_CLK_PIN)
    (n : Nat) :
    ∀ (d : Nat) (w : World), lineState (w.pins cfg.T_CLK_PIN) = .asserted →
      clockAtDataChange cfg (traceFrom w (writeLoop cfg n d w)) =
          List.replicate n .asserted ∧
        lineState ((writeLoop cfg n d w).pins cfg.T_CLK_PIN) = .asserted := by
  induction n with
  | zero => intro d w h; simp [writeLoop, traceFrom_self, clockAtDataChange, h]
  | succ n ih =>
    intro d w h
    have hc := bitCell_clockAtDataChange cfg d w hpins h
    have hr := ih (d >>> 1) (bitCell cfg d w) hc.2
    rw [traceFrom_writeLoop_succ, clockAtDataChange_append, hc.1, hr.1, writeLoop_succ]
    exact ⟨by simp [List.replicate_succ], hr.2⟩

lemma readAck_clockAtDataChange (cfg : Config) (board : Board) (w : World)
    (hpins : cfg.T_DIO_PIN ≠ cfg.T_CLK_PIN)
    (hclk : lineState (w.pins cfg.T_CLK_PIN) = .asserted) :
    clockAtDataChange cfg (traceFrom w (readAck cfg board w).2) = [.asserted] := by
  have hpins2 : cfg.T_CLK_PIN ≠ cfg.T_DIO_PIN := fun h => hpins h.symm
  rw [lineState_asserted_iff] at hclk
  simp [traceFrom, clockAtDataChange, isDataChange, readAck, clockHigh, clockLow, dataHigh,
    bitDelay, pinModeFast, delayMicroseconds, digitalReadFast, lineState, Function.update,
    hpins, hpins2, hclk.1, hclk.2, List.filter_cons]

/-- C15: when `write(v)` is entered with CLOCK asserted (CLK and DIO on
distinct pins), the host changes the DATA line nine times during the call, the
eight bit set-ups and the release before the ACK sample, and CLOCK is asserted
at each of them; so the host never changes DATA while CLOCK is released. -/
theorem data_changes_while_clock_asserted (cfg : Config) (board : Board) (v : Nat)
    (w : World) (hpins : cfg.T_DIO_PIN ≠ cfg.T_CLK_PIN)
    (hclk : lineState (w.pins cfg.T_CLK_PIN) = .asserted) :
    clockAtDataChange cfg (traceFrom w (write cfg board v w).2) =
        [.asserted, .asserted, .asserted, .asserted, .asserted, .asserted, .asserted,
         .asserted, .asserted] ∧
      ∀ st ∈ clockAtDataChange cfg (traceFrom w (write cfg board v w).2),
        st ≠ .released := by
  have hloop := writeLoop_clockAtDataChange cfg hpins 8 v w hclk
  have hack := readAck_clockAtDataChange cfg board (writeLoop cfg 8 v w) hpins hloop.2
  have h : clockAtDataChange cfg (traceFrom w (write cfg board v w).2) =
      [.asserted, .asserted, .asserted, .asserted, .asserted, .asserted, .asserted,
       .asserted, .asserted] := by
    rw [write_trace, clockAtDataChange_append, hloop.1, hack]
    rfl
  refine ⟨h, ?_⟩
  rw [h]
  decide

/-- Witness of `data_changes_while_clock_asserted`: a `write` right after a
start condition on a board after reset. -/
theorem data_changes_while_clock_asserted_witness :
    lineState ((startCondition cfg23 resetWorld).pins cfg23.T_CLK_PIN) = .asserted ∧
      clockAtDataChange cfg23 (traceFrom (startCondition cfg23 resetWorld)
          (write cfg23 (fun _ _ => .LOW) 0x5A (startCondition cfg23 resetWorld)).2) =
        [.asserted, .asserted, .asserted, .asserted, .asserted, .asserted, .asserted,
         .asserted, .asserted] :=
  ⟨by decide,
    (data_changes_while_clock_asserted cfg23 (fun _ _ => .LOW) 0x5A
      (startCondition cfg23 resetWorld) (by decide) (by decide)).1⟩

/-! ## Only `begin` writes output levels -/

lemma write_noLevelWrite (cfg : Config) (board : Board) (v : Nat) (w : World) :
    ∀ e ∈ events (traceFrom w (write cfg board v w).2), isLevelWrite e = false := by
  rw [write_events]
  intro e he
  simp only [writeEvents, cellsEvents, List.mem_append, List.mem_flatMap] at he
  rcases he with ⟨i, _, hi⟩ | ha
  · simp only [cellEvents, List.mem_cons, List.mem_singleton, List.not_mem_nil, or_false] at hi
    rcases hi with h | h | h | h | h | h <;> rw [h] <;> rfl
  · simp only [ackEvents, List.mem_cons, List.mem_singleton, List.not_mem_nil, or_false] at ha
    rcases ha with h | h | h | h | h | h | h <;> rw [h] <;> rfl

lemma assert_drives_low_iff (pin : Nat) (w : World) :
    lineState ((pinModeFast pin .OUTPUT w).pins pin) = .asserted ↔ (w.pins pin).out = .LOW := by
  simp [pinModeFast, lineState_asserted_iff]

/-- C16: `begin()` writes `LOW` to the output bits of the CLOCK and DATA pins
and then releases both lines; `end()`, `startCondition()`, `stopCondition()`
and `write()` never write an output level: they leave the output bit of every
pin as it was, after every single call to the pin layer and at the end; and
putting a pin in `OUTPUT` mode (asserting the line) drives the line low exactly
when the output bit of the pin is `LOW`, which is what `begin()` has set. -/
theorem only_begin_writes_levels (cfg : Config) (board : Board) (v : Nat) (w : World) :
    (events (traceFrom w (begin cfg w)) =
        [.digitalWriteFast cfg.T_CLK_PIN .LOW, .digitalWriteFast cfg.T_DIO_PIN .LOW,
         .pinModeFast cfg.T_CLK_PIN .INPUT, .delayMicroseconds cfg.T_DELAY_MICROS,
         .pinModeFast cfg.T_DIO_PIN .INPUT, .delayMicroseconds cfg.T_DELAY_MICROS] ∧
      ((begin cfg w).pins cfg.T_CLK_PIN).out = .LOW ∧
      ((begin cfg w).pins cfg.T_DIO_PIN).out = .LOW) ∧
      ((∀ e ∈ events (traceFrom w («end» cfg w)), isLevelWrite e = false) ∧
        KeepsOut w («end» cfg w)) ∧
      ((∀ e ∈ events (traceFrom w (startCondition cfg w)), isLevelWrite e = false) ∧
        KeepsOut w (startCondition cfg w)) ∧
      ((∀ e ∈ events (traceFrom w (stopCondition cfg w)), isLevelWrite e = false) ∧
        KeepsOut w (stopCondition cfg w)) ∧
      ((∀ e ∈ events (traceFrom w (write cfg board v w).2), isLevelWrite e = false) ∧
        KeepsOut w (write cfg board v w).2) ∧
      (lineState ((clockLow cfg w).pins cfg.T_CLK_PIN) = .asserted ↔
        (w.pins cfg.T_CLK_PIN).out = .LOW) ∧
      (lineState ((dataLow cfg w).pins cfg.T_DIO_PIN) = .asserted ↔
        (w.pins cfg.T_DIO_PIN).out = .LOW) := by
  refine ⟨⟨?_, begin_out_low cfg w⟩, ⟨?_, end_keepsOut cfg w⟩,
    ⟨?_, startCondition_keepsOut cfg w⟩, ⟨?_, stopCondition_keepsOut cfg w⟩,
    ⟨write_noLevelWrite cfg board v w, write_keepsOut cfg board v w⟩,
    assert_drives_low_iff _ w, assert_drives_low_iff _ w⟩
  · simp [traceFrom, events, begin, clockHigh, dataHigh, bitDelay, pinModeFast,
      delayMicroseconds, digitalWriteFast]
  · simp [traceFrom, events, «end», clockHigh, dataHigh, bitDelay, pinModeFast,
      delayMicroseconds, isLevelWrite]
  · simp [traceFrom, events, startCondition, clockHigh, clockLow, dataHigh, dataLow, bitDelay,
      pinModeFast, delayMicroseconds, isLevelWrite]
  · simp [traceFrom, events, stopCondition, clockHigh, dataHigh, dataLow, bitDelay,
      pinModeFast, delayMicroseconds, isLevelWrite]

/-! ## The trace of `write` depends on the byte alone -/

/-- C17: the pin actions and delays of `write(v)` are those of the eight bit
cells of `v` followed by the ACK cell, whatever the board and the prior state;
so two runs with the same byte, with any two boards (any sampled ACK levels)
and any two prior pin states, perform the same sequence of pin actions and
delays. -/
theorem write_actions_depend_on_byte_only (cfg : Config) (v : Nat) (board1 board2 : Board)
    (w1 w2 : World) :
    actions (traceFrom w1 (write cfg board1 v w1).2) =
        (writeEvents cfg v .LOW).map Event.action ∧
      actions (traceFrom w1 (write cfg board1 v w1).2) =
        actions (traceFrom w2 (write cfg board2 v w2).2) := by
  have h : ∀ (b : Board) (x : World),
      actions (traceFrom x (write cfg b v x).2) = (writeEvents cfg v .LOW).map Event.action := by
    intro b x
    rw [actions, write_events]
    simp [writeEvents, ackEvents, Event.action]
  exact ⟨h board1 w1, (h board1 w1).trans (h board2 w2).symm⟩

end ace_tmi
